import Mathlib

/-!
Verification of the core game logic of Times Table Turbo (`src/script.js`):
the attempt scorer `computeScore`, the persisted fact-statistics store
(`loadStats` / `statKey` / `updateStats`), the Fisher–Yates `shuffle`, and
the round builder `generateQuestions`.

Embedding conventions:
* JavaScript numbers are modelled as exact rationals `ℚ` (the spec states all
  scoring identities in real arithmetic).
* The `localStorage` round-trip inside `updateStats` is modelled by explicit
  state passing: `updateStats` takes the loaded table and returns the table
  that is saved back.
* Randomness (`Math.random()`) is modelled by explicit draw streams, one per
  call site, so that properties can be stated for every sequence of draws.
-/

namespace TimesTableTurbo

/-- `TOTAL_QUESTIONS` (src/script.js:9). -/
def TOTAL_QUESTIONS : Nat := 15

/-- `EMA_ALPHA` (src/script.js:12): exponential moving average weight. -/
def EMA_ALPHA : ℚ := 0.3

/-- Speed sub-score of `computeScore` (src/script.js:67-70): the value the
`speedScore` local variable holds after the if/else chain. -/
def speedScore (timeSec : ℚ) : ℚ :=
  if timeSec ≤ 2 then 100
  else if timeSec ≥ 8 then 0
  else 100 - ((timeSec - 2) / 6) * 100

/-- `computeScore` (src/script.js:64-73): blend of accuracy (70%) and
speed (30%) sub-scores. -/
def computeScore (correct : Bool) (timeSec : ℚ) : ℚ :=
  let accScore : ℚ := if correct then 100 else 0
  accScore * 0.7 + speedScore timeSec * 0.3

/-- `statKey` (src/script.js:55-57): the template literal `a_b`. -/
def statKey (a b : Nat) : String :=
  toString a ++ "_" ++ toString b

/-- One persisted fact record `{ confidence, attempts }` (src/script.js:86). -/
structure FactRecord where
  confidence : ℚ
  attempts : Nat
deriving DecidableEq

/-- The persisted stats object: a mapping from string keys to fact records.
A key absent from the JavaScript object is modelled as `none`. -/
def StatsTable : Type := String → Option FactRecord

/-- `updateStats` (src/script.js:75-90), with the `loadStats()` /
`saveStats(stats)` round-trip made explicit: the argument `stats` is the
loaded table and the result is the table written back. -/
def updateStats (a b : Nat) (correct : Bool) (timeSec : ℚ)
    (stats : StatsTable) : StatsTable :=
  let key := statKey a b
  let newScore := computeScore correct timeSec
  fun k =>
    if k = key then
      match stats key with
      | some r =>
          some { confidence := r.confidence * (1 - EMA_ALPHA) + newScore * EMA_ALPHA,
                 attempts := r.attempts + 1 }
      | none => some { confidence := newScore, attempts := 1 }
    else stats k

/-- One update request, as issued by `submitAnswer` (src/script.js:185):
the arguments of one `updateStats(a, b, correct, timeSec)` call. -/
structure UpdateOp where
  a : Nat
  b : Nat
  correct : Bool
  timeSec : ℚ

/-- A sequence of `updateStats` calls applied in order (each call loads the
table the previous call saved). -/
def applyUpdates (stats : StatsTable) : List UpdateOp → StatsTable
  | [] => stats
  | op :: ops => applyUpdates (updateStats op.a op.b op.correct op.timeSec stats) ops

/-!  Storage model for `loadStats`.  `JSON.parse` is a platform primitive, so
the stored cell is abstracted by its observable outcome: the entry can be
absent (or hold the empty string, which is falsy), it can hold a string on
which `JSON.parse` throws, or it can hold a string that parses to some JSON
value — of any shape whatsoever. -/

/-- JSON values, the possible results of a successful `JSON.parse`. -/
inductive Json where
  | null : Json
  | bool (b : Bool) : Json
  | num (q : ℚ) : Json
  | str (s : String) : Json
  | arr (elems : List Json) : Json
  | obj (fields : List (String × Json)) : Json

/-- The state of the `localStorage` cell under `STORAGE_KEY`, abstracted to
what `loadStats` can observe: `none` — entry absent or empty string (falsy
`raw`); `some (Except.error ())` — `JSON.parse raw` threw;
`some (Except.ok v)` — `JSON.parse raw` returned the value `v`. -/
def StorageCell : Type := Option (Except Unit Json)

/-- `loadStats` (src/script.js:43-49): returns `JSON.parse(raw)` whenever the
entry is present and parses, and the empty object `{}` otherwise (absent
entry, falsy raw string, or an exception caught by the `try`/`catch`). -/
def loadStats : StorageCell → Json
  | some (Except.ok v) => v
  | some (Except.error _) => Json.obj []
  | none => Json.obj []

/-- Modelled from the spec: a JSON value has the shape of one persisted
FactRecord when it is an object with exactly the numeric fields
`confidence` and `attempts`. -/
def specFactRecordShape : Json → Bool
  | Json.obj [(k1, Json.num _), (k2, Json.num _)] =>
      k1 = "confidence" && k2 = "attempts"
  | _ => false

/-- Modelled from the spec: a JSON value has the shape of a persisted
StatsTable when it is an object all of whose values are FactRecord-shaped
(a flat mapping from string keys to records with numeric fields
`confidence` and `attempts`). -/
def specStatsTableShape : Json → Bool
  | Json.obj fields => fields.all fun kv => specFactRecordShape kv.2
  | _ => false

/-!  Question generation. -/

/-- The destructuring swap `[arr[i], arr[j]] = [arr[j], arr[i]]`
(src/script.js:99) on the list model of a JavaScript array.  In the source
both indices are always in bounds (`j = Math.floor(Math.random()*(i+1)) ≤ i`
and `i < arr.length`); out-of-range indices — which the caller never
produces — leave the list unchanged to keep the function total. -/
def listSwap (l : List α) (i j : Nat) : List α :=
  if hi : i < l.length then
    if hj : j < l.length then
      (l.set i (l.get ⟨j, hj⟩)).set j (l.get ⟨i, hi⟩)
    else l
  else l

/-- The loop of `shuffle` (src/script.js:97-100): at loop counter `i` the
drawn index is `js i = Math.floor(Math.random() * (i + 1))`, and the loop
runs from `i = arr.length - 1` down to `i = 1`. -/
def shuffleGo (js : Nat → Nat) : List α → Nat → List α
  | l, 0 => l
  | l, i + 1 => shuffleGo js (listSwap l (i + 1) (js (i + 1))) i

/-- `shuffle` (src/script.js:96-102): in-place Fisher–Yates, with the random
draws made explicit as the stream `js` (the draw used at loop counter `i`
is `js i`). -/
def shuffle (l : List α) (js : Nat → Nat) : List α :=
  shuffleGo js l (l.length - 1)

/-- A question before the display swap: the `{ a, b }` objects built inside
`generateQuestions` (src/script.js:112,118). -/
structure RawQuestion where
  a : Nat
  b : Nat
deriving DecidableEq, Inhabited

/-- A generated question `{ a, b, answer }` (src/script.js:129-130). -/
structure QuestionSpec where
  a : Nat
  b : Nat
  answer : Nat
deriving DecidableEq

/-- The mode selector passed to `generateQuestions` (src/script.js:104):
either the string `'mixed'`, or a table-number string whose `parseInt`
value is `n` (the caller passes `data-table` values `'1'`…`'12'`). -/
inductive Mode where
  | mixed : Mode
  | table (n : Nat) : Mode

/-- The display-swap pass (src/script.js:128-131): `qs.map(q => ...)` where
each element independently swaps `a` and `b` when `Math.random() < 0.5`.
The coin for the element at position `i` is `swaps i`; in both branches
`answer` is the product of the pre-swap operands. -/
def applySwaps (swaps : Nat → Bool) : Nat → List RawQuestion → List QuestionSpec
  | _, [] => []
  | i, q :: rest =>
      (if swaps i then { a := q.b, b := q.a, answer := q.a * q.b }
       else { a := q.a, b := q.b, answer := q.a * q.b }) :: applySwaps swaps (i + 1) rest

/-- The random draw streams consumed by one `generateQuestions` call, one
stream per `Math.random()` call site: `mixedA i`/`mixedB i` give
`Math.floor(Math.random()*12)` for the `i`-th mixed-mode pair (always in
`[0,11]` since `Math.random() < 1`); `poolJs`/`qsJs` feed the two `shuffle`
calls; `swaps i` is `Math.random() < 0.5` for the `i`-th display swap. -/
structure DrawStreams where
  mixedA : Nat → Fin 12
  mixedB : Nat → Fin 12
  poolJs : Nat → Nat
  qsJs : Nat → Nat
  swaps : Nat → Bool

/-- The mixed-mode loop of `generateQuestions` (src/script.js:109-113):
15 pairs with `a = Math.floor(Math.random()*12) + 1` and likewise `b`. -/
def mixedPairs (r : DrawStreams) : List RawQuestion :=
  (List.range TOTAL_QUESTIONS).map fun i =>
    { a := (r.mixedA i).val + 1, b := (r.mixedB i).val + 1 }

/-- The coverage pool of the fixed-table branch (src/script.js:117-118):
all 12 pairs `{ a: n, b: i }` for `i = 1..12`. -/
def tablePool (n : Nat) : List RawQuestion :=
  (List.range 12).map fun i => { a := n, b := i + 1 }

/-- The cyclic fill of the fixed-table branch (src/script.js:121-123):
15 slots taken as `pool[i % pool.length]`. -/
def cyclicFill (pool : List RawQuestion) : List RawQuestion :=
  (List.range TOTAL_QUESTIONS).map fun i => pool.getD (i % pool.length) default

/-- `generateQuestions` (src/script.js:104-132).  Mixed mode pushes 15
uniformly drawn pairs; fixed-table mode builds the pool `(n,1)…(n,12)`,
shuffles it, fills 15 slots cyclically, and shuffles again.  Both modes end
with the display-swap map. -/
def generateQuestions (mode : Mode) (r : DrawStreams) : List QuestionSpec :=
  match mode with
  | Mode.mixed => applySwaps r.swaps 0 (mixedPairs r)
  | Mode.table n =>
      applySwaps r.swaps 0 (shuffle (cyclicFill (shuffle (tablePool n) r.poolJs)) r.qsJs)

/-!  Helper lemmas. -/

theorem speedScore_nonneg (t : ℚ) : 0 ≤ speedScore t := by
  unfold speedScore
  split
  · norm_num
  · split
    · norm_num
    · rename_i h1 h2
      push_neg at h1 h2
      have h6 : (0:ℚ) < 6 := by norm_num
      rw [div_mul_eq_mul_div, sub_nonneg, div_le_iff₀ h6]
      linarith

theorem speedScore_le (t : ℚ) : speedScore t ≤ 100 := by
  unfold speedScore
  split
  · norm_num
  · split
    · norm_num
    · rename_i h1 h2
      push_neg at h1 h2
      have h6 : (0:ℚ) < 6 := by norm_num
      have : 0 ≤ ((t - 2) / 6) * 100 :=
        mul_nonneg (div_nonneg (by linarith) (by norm_num)) (by norm_num)
      linarith

theorem computeScore_nonneg (c : Bool) (t : ℚ) : 0 ≤ computeScore c t := by
  have hs := speedScore_nonneg t
  unfold computeScore
  cases c <;> simp <;> linarith

theorem computeScore_le (c : Bool) (t : ℚ) : computeScore c t ≤ 100 := by
  have hs := speedScore_le t
  have hs0 := speedScore_nonneg t
  unfold computeScore
  cases c <;> simp <;> linarith

theorem get_cons_set_perm (x : α) : ∀ (xs : List α) (m : Nat) (h : m < xs.length),
    List.Perm (xs.get ⟨m, h⟩ :: xs.set m x) (x :: xs) := by
  intro xs
  induction xs with
  | nil => intro m h; simp at h
  | cons y ys ih =>
    intro m h
    cases m with
    | zero => exact List.Perm.swap x y ys
    | succ m =>
      have hm : m < ys.length := by simpa using h
      exact ((List.Perm.swap y _ _).trans ((ih m hm).cons y)).trans (List.Perm.swap x y ys)

theorem set_set_perm : ∀ (l : List α) (i j : Nat) (hi : i < l.length) (hj : j < l.length),
    List.Perm ((l.set i (l.get ⟨j, hj⟩)).set j (l.get ⟨i, hi⟩)) l := by
  intro l
  induction l with
  | nil => intro i j hi _; simp at hi
  | cons x xs ih =>
    intro i j hi hj
    match i, j with
    | 0, 0 => exact List.Perm.refl _
    | 0, m + 1 => exact get_cons_set_perm x xs m (by simpa using hj)
    | m + 1, 0 => exact get_cons_set_perm x xs m (by simpa using hi)
    | m + 1, k + 1 =>
      exact (ih m k (by simpa using hi) (by simpa using hj)).cons x

theorem listSwap_perm (l : List α) (i j : Nat) : List.Perm (listSwap l i j) l := by
  unfold listSwap
  split
  · split
    · exact set_set_perm l i j (by assumption) (by assumption)
    · exact List.Perm.refl l
  · exact List.Perm.refl l

theorem shuffleGo_perm (js : Nat → Nat) :
    ∀ (i : Nat) (l : List α), List.Perm (shuffleGo js l i) l := by
  intro i
  induction i with
  | zero => intro l; exact List.Perm.refl l
  | succ i ih =>
    intro l
    exact (ih _).trans (listSwap_perm l (i + 1) (js (i + 1)))

theorem shufflePerm (l : List α) (js : Nat → Nat) : List.Perm (shuffle l js) l :=
  shuffleGo_perm js (l.length - 1) l

theorem updateStats_apply (a b : Nat) (c : Bool) (t : ℚ) (s : StatsTable) (k : String) :
    updateStats a b c t s k =
      if k = statKey a b then
        match s (statKey a b) with
        | some r =>
            some { confidence := r.confidence * (1 - EMA_ALPHA) + computeScore c t * EMA_ALPHA,
                   attempts := r.attempts + 1 }
        | none => some { confidence := computeScore c t, attempts := 1 }
      else s k := rfl

theorem updateStats_apply_ne (a b : Nat) (c : Bool) (t : ℚ) (s : StatsTable)
    (k : String) (hk : k ≠ statKey a b) : updateStats a b c t s k = s k := by
  rw [updateStats_apply, if_neg hk]

/-- A record satisfying the documented FactRecord invariant: confidence in
the interval from 0 to 100, and at least one attempt counted. -/
def GoodRecord (r : FactRecord) : Prop :=
  0 ≤ r.confidence ∧ r.confidence ≤ 100 ∧ 1 ≤ r.attempts

/-- The documented StatsTable invariant: every existing record is good. -/
def TableInvariant (s : StatsTable) : Prop :=
  ∀ k r, s k = some r → GoodRecord r

theorem updateStats_invariant (a : Nat) (b : Nat) (c : Bool) (t : ℚ) (s : StatsTable)
    (hs : TableInvariant s) : TableInvariant (updateStats a b c t s) := by
  intro k r hr
  rw [updateStats_apply] at hr
  by_cases hk : k = statKey a b
  · rw [if_pos hk] at hr
    have h0 := computeScore_nonneg c t
    have h100 := computeScore_le c t
    cases hsk : s (statKey a b) with
    | none =>
      rw [hsk] at hr
      injection hr with hr
      subst hr
      exact ⟨h0, h100, Nat.le_refl 1⟩
    | some r0 =>
      rw [hsk] at hr
      injection hr with hr
      subst hr
      obtain ⟨hr0, hr100, _⟩ := hs (statKey a b) r0 hsk
      refine ⟨?_, ?_, Nat.le_add_left 1 _⟩ <;> simp only [EMA_ALPHA] <;> nlinarith
  · rw [if_neg hk] at hr
    exact hs k r hr

theorem updateStats_attempts_mono (a : Nat) (b : Nat) (c : Bool) (t : ℚ) (s : StatsTable)
    (k : String) (r : FactRecord) (hr : s k = some r) :
    ∃ r', updateStats a b c t s k = some r' ∧ r.attempts ≤ r'.attempts := by
  rw [updateStats_apply]
  by_cases hk : k = statKey a b
  · rw [if_pos hk, ← hk, hr]
    exact ⟨_, rfl, Nat.le_succ _⟩
  · rw [if_neg hk]
    exact ⟨r, hr, Nat.le_refl _⟩

theorem applyUpdates_invariant_mono (ops : List UpdateOp) :
    ∀ (s : StatsTable), TableInvariant s →
      TableInvariant (applyUpdates s ops) ∧
      (∀ k r, s k = some r →
        ∃ r', applyUpdates s ops k = some r' ∧ r.attempts ≤ r'.attempts) := by
  induction ops with
  | nil =>
    intro s hs
    exact ⟨hs, fun k r hr => ⟨r, hr, Nat.le_refl _⟩⟩
  | cons op ops ih =>
    intro s hs
    have hstep := updateStats_invariant op.a op.b op.correct op.timeSec s hs
    obtain ⟨hinv, hmono⟩ := ih _ hstep
    refine ⟨hinv, fun k r hr => ?_⟩
    obtain ⟨r1, hr1, hle1⟩ := updateStats_attempts_mono op.a op.b op.correct op.timeSec s k r hr
    obtain ⟨r2, hr2, hle2⟩ := hmono k r1 hr1
    exact ⟨r2, hr2, Nat.le_trans hle1 hle2⟩

/-- The relation between a displayed question and the raw pair it came
from: the operands agree up to the display swap and the answer is the
product of the raw operands. -/
def SwapOf (q' : QuestionSpec) (q : RawQuestion) : Prop :=
  ((q'.a = q.a ∧ q'.b = q.b) ∨ (q'.a = q.b ∧ q'.b = q.a)) ∧ q'.answer = q.a * q.b

theorem applySwaps_length (swaps : Nat → Bool) :
    ∀ (i : Nat) (qs : List RawQuestion), (applySwaps swaps i qs).length = qs.length := by
  intro i qs
  induction qs generalizing i with
  | nil => rfl
  | cons q rest ih => simp [applySwaps, ih]

theorem mem_applySwaps (swaps : Nat → Bool) :
    ∀ (i : Nat) (qs : List RawQuestion) (q' : QuestionSpec),
      q' ∈ applySwaps swaps i qs → ∃ q ∈ qs, SwapOf q' q := by
  intro i qs
  induction qs generalizing i with
  | nil => intro q' h; simp [applySwaps] at h
  | cons q rest ih =>
    intro q' h
    rw [applySwaps, List.mem_cons] at h
    rcases h with h | h
    · refine ⟨q, List.mem_cons_self q rest, ?_⟩
      subst h
      by_cases hsw : swaps i
      · rw [if_pos hsw]; exact ⟨Or.inr ⟨rfl, rfl⟩, rfl⟩
      · rw [if_neg hsw]; exact ⟨Or.inl ⟨rfl, rfl⟩, rfl⟩
    · obtain ⟨q0, hq0, hrel⟩ := ih (i + 1) q' h
      exact ⟨q0, List.mem_cons_of_mem q hq0, hrel⟩

theorem applySwaps_mem (swaps : Nat → Bool) :
    ∀ (i : Nat) (qs : List RawQuestion) (q : RawQuestion),
      q ∈ qs → ∃ q' ∈ applySwaps swaps i qs, SwapOf q' q := by
  intro i qs
  induction qs generalizing i with
  | nil => intro q h; simp at h
  | cons q0 rest ih =>
    intro q h
    rw [List.mem_cons] at h
    rcases h with h | h
    · subst h
      refine ⟨_, List.mem_cons_self _ _, ?_⟩
      by_cases hsw : swaps i
      · rw [if_pos hsw]; exact ⟨Or.inr ⟨rfl, rfl⟩, rfl⟩
      · rw [if_neg hsw]; exact ⟨Or.inl ⟨rfl, rfl⟩, rfl⟩
    · obtain ⟨q', hq', hrel⟩ := ih (i + 1) q h
      exact ⟨q', List.mem_cons_of_mem _ hq', hrel⟩

/-- Elements of the cyclic 15-slot fill all come from the pool. -/
theorem mem_cyclicFill (pool : List RawQuestion) (hpool : pool ≠ []) (q : RawQuestion)
    (hq : q ∈ cyclicFill pool) : q ∈ pool := by
  rw [cyclicFill, List.mem_map] at hq
  obtain ⟨i, _, hi⟩ := hq
  have hlen : 0 < pool.length := List.length_pos.2 hpool
  have hmod : i % pool.length < pool.length := Nat.mod_lt i hlen
  rw [List.getD_eq_getElem pool default hmod] at hi
  exact hi ▸ List.getElem_mem hmod

/-- Every pool element appears in the cyclic 15-slot fill (the pool has 12
elements and the fill visits indices `0 % 12`…`14 % 12`). -/
theorem cyclicFill_covers (pool : List RawQuestion) (hlen : pool.length = 12)
    (q : RawQuestion) (hq : q ∈ pool) : q ∈ cyclicFill pool := by
  rw [List.mem_iff_getElem] at hq
  obtain ⟨m, hm, hval⟩ := hq
  rw [cyclicFill, List.mem_map]
  refine ⟨m, List.mem_range.2 ?_, ?_⟩
  · unfold TOTAL_QUESTIONS
    omega
  · have hmod : m % pool.length = m := Nat.mod_eq_of_lt hm
    rw [hmod, List.getD_eq_getElem pool default hm, hval]

theorem cyclicFill_length (pool : List RawQuestion) :
    (cyclicFill pool).length = TOTAL_QUESTIONS := by
  rw [cyclicFill, List.length_map, List.length_range]

theorem tablePool_length (n : Nat) : (tablePool n).length = 12 := by
  rw [tablePool, List.length_map, List.length_range]

theorem tablePool_mem_iff (n : Nat) (q : RawQuestion) :
    q ∈ tablePool n ↔ q.a = n ∧ 1 ≤ q.b ∧ q.b ≤ 12 := by
  rw [tablePool, List.mem_map]
  constructor
  · rintro ⟨i, hi, rfl⟩
    rw [List.mem_range] at hi
    exact ⟨rfl, (by omega : 1 ≤ i + 1), (by omega : i + 1 ≤ 12)⟩
  · rintro ⟨ha, hb1, hb2⟩
    obtain ⟨qa, qb⟩ := q
    dsimp only at ha hb1 hb2
    refine ⟨qb - 1, List.mem_range.2 (by omega), ?_⟩
    show ({ a := n, b := qb - 1 + 1 } : RawQuestion) = { a := qa, b := qb }
    have hq : qb - 1 + 1 = qb := by omega
    rw [← ha, hq]

/-- The fresh stats object `{}` returned when nothing was persisted. -/
def emptyStats : StatsTable := fun _ => none

/-- The mode values the UI can pass (src/script.js:324-325: the `data-table`
attributes are `'1'`…`'12'` and `'mixed'`). -/
def ValidMode : Mode → Prop
  | Mode.mixed => True
  | Mode.table n => 1 ≤ n ∧ n ≤ 12

/-- A concrete draw-stream bundle used to instantiate the generator. -/
def constStreams : DrawStreams :=
  { mixedA := fun _ => 0, mixedB := fun _ => 0,
    poolJs := fun _ => 0, qsJs := fun _ => 0, swaps := fun _ => false }

theorem statKey_ne_of_lt : ∀ a < 13, ∀ b < 13, a ≠ b → statKey a b ≠ statKey b a := by
  decide

/-!  Claim theorems. -/

/-- C1: `update(a, b, correct, timeSeconds)` with
`newScore = computeScore(correct, timeSeconds)` sets the record at
`key(a,b)` to `{ confidence: newScore, attempts: 1 }` when no record
existed, and otherwise replaces it with
`{ confidence: old*0.7 + newScore*0.3, attempts: old+1 }`; two successive
updates on a fresh key with scores `s1` then `s2` leave
`confidence = s1*0.7 + s2*0.3` and `attempts = 2`. -/
theorem updateStats_ema_spec (a b : Nat) (c : Bool) (t : ℚ) (s : StatsTable) :
    (s (statKey a b) = none →
      updateStats a b c t s (statKey a b) =
        some { confidence := computeScore c t, attempts := 1 }) ∧
    (∀ r, s (statKey a b) = some r →
      updateStats a b c t s (statKey a b) =
        some { confidence := r.confidence * 0.7 + computeScore c t * 0.3,
               attempts := r.attempts + 1 }) ∧
    (∀ (c2 : Bool) (t2 : ℚ), s (statKey a b) = none →
      updateStats a b c2 t2 (updateStats a b c t s) (statKey a b) =
        some { confidence := computeScore c t * 0.7 + computeScore c2 t2 * 0.3,
               attempts := 2 }) := by
  refine ⟨?_, ?_, ?_⟩
  · intro h
    rw [updateStats_apply, if_pos rfl, h]
  · intro r h
    rw [updateStats_apply, if_pos rfl, h]
    norm_num [EMA_ALPHA]
  · intro c2 t2 h
    have h1 : updateStats a b c t s (statKey a b) =
        some { confidence := computeScore c t, attempts := 1 } := by
      rw [updateStats_apply, if_pos rfl, h]
    rw [updateStats_apply, if_pos rfl, h1]
    norm_num [EMA_ALPHA]

theorem updateStats_ema_spec_witness :
    emptyStats (statKey 3 4) = none ∧
    updateStats 3 4 true 1 emptyStats (statKey 3 4) =
      some { confidence := computeScore true 1, attempts := 1 } ∧
    updateStats 3 4 false 9 (updateStats 3 4 true 1 emptyStats) (statKey 3 4) =
      some { confidence := computeScore true 1 * 0.7 + computeScore false 9 * 0.3,
             attempts := 2 } :=
  ⟨rfl, (updateStats_ema_spec 3 4 true 1 emptyStats).1 rfl,
    (updateStats_ema_spec 3 4 true 1 emptyStats).2.2 false 9 rfl⟩

/-- C2: starting from a table whose records all satisfy the invariant,
any sequence of updates preserves it — every record keeps
`confidence ∈ [0,100]` and an attempt count that is a natural number at
least 1; records are never deleted and per-key attempt counts never
decrease. -/
theorem applyUpdates_invariant (ops : List UpdateOp) (s : StatsTable)
    (hs : TableInvariant s) :
    TableInvariant (applyUpdates s ops) ∧
    (∀ k r, s k = some r →
      ∃ r', applyUpdates s ops k = some r' ∧ r.attempts ≤ r'.attempts) :=
  applyUpdates_invariant_mono ops s hs

theorem applyUpdates_invariant_witness :
    TableInvariant emptyStats ∧
    TableInvariant (applyUpdates emptyStats [⟨2, 3, true, 1⟩]) :=
  ⟨fun _ _ h => Option.noConfusion h,
    (applyUpdates_invariant [⟨2, 3, true, 1⟩] emptyStats
      (fun _ _ h => Option.noConfusion h)).1⟩

/-- C3: `computeScore(correct, t)` is `0.7×accuracy + 0.3×speed(t)` with
`speed(t) = 100` for `t ≤ 2`, `0` for `t ≥ 8`, and `100 − ((t−2)/6)×100`
for `2 < t < 8`; in particular `computeScore(true, t)` is 100 for `t ≤ 2`,
70 for `t ≥ 8`, 85 at `t = 5`, and `computeScore(false, t) = 0.3×speed(t)`
for all `t`. -/
theorem computeScore_formula (c : Bool) (t : ℚ) :
    computeScore c t = 0.7 * (if c then (100 : ℚ) else 0) + 0.3 * speedScore t ∧
    (t ≤ 2 → speedScore t = 100) ∧
    (8 ≤ t → speedScore t = 0) ∧
    (2 < t → t < 8 → speedScore t = 100 - ((t - 2) / 6) * 100) ∧
    (t ≤ 2 → computeScore true t = 100) ∧
    (8 ≤ t → computeScore true t = 70) ∧
    computeScore true 5 = 85 ∧
    computeScore false t = 0.3 * speedScore t := by
  have hs2 : ∀ u : ℚ, u ≤ 2 → speedScore u = 100 := by
    intro u h
    unfold speedScore
    rw [if_pos h]
  have hs8 : ∀ u : ℚ, 8 ≤ u → speedScore u = 0 := by
    intro u h
    unfold speedScore
    rw [if_neg (not_le.2 (by linarith)), if_pos h]
  refine ⟨?_, hs2 t, hs8 t, ?_, ?_, ?_, ?_, ?_⟩
  · simp only [computeScore]
    ring
  · intro h1 h2
    unfold speedScore
    rw [if_neg (not_le.2 h1), if_neg (not_le.2 h2)]
  · intro h
    simp only [computeScore, hs2 t h]
    norm_num
  · intro h
    simp only [computeScore, hs8 t h]
    norm_num
  · norm_num [computeScore, speedScore]
  · simp only [computeScore]
    norm_num
    ring

theorem computeScore_formula_witness :
    (1 : ℚ) ≤ 2 ∧ computeScore true 1 = 100 ∧
    (8 : ℚ) ≤ 9 ∧ computeScore true 9 = 70 ∧
    (2 : ℚ) < 5 ∧ (5 : ℚ) < 8 ∧ speedScore 5 = 100 - ((5 - 2) / 6) * 100 :=
  ⟨by norm_num, (computeScore_formula true 1).2.2.2.2.1 (by norm_num),
    by norm_num, (computeScore_formula true 9).2.2.2.2.2.1 (by norm_num),
    by norm_num, by norm_num,
    (computeScore_formula true 5).2.2.2.1 (by norm_num) (by norm_num)⟩

/-- C4: `computeScore` is a total function (hence pure and deterministic),
and for every correctness flag and every time — including negative or
absurd times, which fall into the boundary clamps — its result lies in
`[0,100]`. -/
theorem computeScore_bounds (c : Bool) (t : ℚ) :
    0 ≤ computeScore c t ∧ computeScore c t ≤ 100 :=
  ⟨computeScore_nonneg c t, computeScore_le c t⟩

/-- C5 counterexample: a stored string that `JSON.parse` accepts but whose
value is not StatsTable-shaped — for instance the JSON number `5` — is
returned by `loadStats` as-is, not discarded as corruption. -/
theorem loadStats_shape_counterexample :
    loadStats (some (Except.ok (Json.num 5))) = Json.num 5 ∧
    specStatsTableShape (Json.num 5) = false ∧
    loadStats (some (Except.ok (Json.num 5))) ≠ Json.obj [] :=
  ⟨rfl, rfl, fun h => Json.noConfusion h⟩

/-- C5 amended: `loadStats` never raises: it returns the empty mapping when
the stored entry is missing (or empty) or when `JSON.parse` throws, but any
value that parses successfully is returned unchanged, whatever its shape —
shape mismatches are not detected or discarded. -/
theorem loadStats_soft_fail :
    loadStats none = Json.obj [] ∧
    (∀ e, loadStats (some (Except.error e)) = Json.obj []) ∧
    (∀ v, loadStats (some (Except.ok v)) = v) :=
  ⟨rfl, fun _ => rfl, fun _ => rfl⟩

/-- C8: the fact key is order-sensitive — for `a ≠ b` in `[1,12]`,
`key(a,b) ≠ key(b,a)`, so updating the swapped presentation neither touches
the record at `key(a,b)` nor vice versa: the two presentations are tracked
as separate records. -/
theorem statKey_order_sensitive (a b : Nat) (ha1 : 1 ≤ a) (ha2 : a ≤ 12)
    (hb1 : 1 ≤ b) (hb2 : b ≤ 12) (hne : a ≠ b) :
    statKey a b ≠ statKey b a ∧
    (∀ (s : StatsTable) (c : Bool) (t : ℚ),
      updateStats b a c t s (statKey a b) = s (statKey a b)) ∧
    (∀ (s : StatsTable) (c : Bool) (t : ℚ),
      updateStats a b c t s (statKey b a) = s (statKey b a)) := by
  have hkey : statKey a b ≠ statKey b a :=
    statKey_ne_of_lt a (by omega) b (by omega) hne
  refine ⟨hkey, ?_, ?_⟩
  · intro s c t
    exact updateStats_apply_ne b a c t s _ hkey
  · intro s c t
    exact updateStats_apply_ne a b c t s _ (Ne.symm hkey)

theorem statKey_order_sensitive_witness :
    (1 ≤ 3 ∧ 3 ≤ 12 ∧ 1 ≤ 7 ∧ 7 ≤ 12 ∧ 3 ≠ 7) ∧
    statKey 3 7 ≠ statKey 7 3 ∧
    updateStats 7 3 true 1 emptyStats (statKey 3 7) = emptyStats (statKey 3 7) :=
  ⟨⟨by omega, by omega, by omega, by omega, by omega⟩,
    (statKey_order_sensitive 3 7 (by omega) (by omega) (by omega) (by omega)
      (by omega)).1,
    (statKey_order_sensitive 3 7 (by omega) (by omega) (by omega) (by omega)
      (by omega)).2.1 emptyStats true 1⟩

/-- C9: `updateStats` leaves every record whose key differs from `key(a,b)`
unchanged, and creates or modifies exactly the one keyed record. -/
theorem updateStats_frame (a b : Nat) (c : Bool) (t : ℚ) (s : StatsTable) :
    (∀ k, k ≠ statKey a b → updateStats a b c t s k = s k) ∧
    (∃ r, updateStats a b c t s (statKey a b) = some r) := by
  constructor
  · intro k hk
    exact updateStats_apply_ne a b c t s k hk
  · rw [updateStats_apply, if_pos rfl]
    cases s (statKey a b) with
    | none => exact ⟨_, rfl⟩
    | some r => exact ⟨_, rfl⟩

theorem updateStats_frame_witness :
    statKey 1 2 ≠ statKey 3 4 ∧
    updateStats 3 4 true 1 emptyStats (statKey 1 2) = emptyStats (statKey 1 2) :=
  ⟨by decide, (updateStats_frame 3 4 true 1 emptyStats).1 (statKey 1 2) (by decide)⟩

theorem applySwaps_spec (swaps : Nat → Bool) (i : Nat) (qs : List RawQuestion)
    (hqs : ∀ q ∈ qs, (1 ≤ q.a ∧ q.a ≤ 12) ∧ (1 ≤ q.b ∧ q.b ≤ 12)) :
    ∀ q' ∈ applySwaps swaps i qs,
      (1 ≤ q'.a ∧ q'.a ≤ 12) ∧ (1 ≤ q'.b ∧ q'.b ≤ 12) ∧ q'.answer = q'.a * q'.b := by
  intro q' hq'
  obtain ⟨q, hq, hrel, hans⟩ := mem_applySwaps swaps i qs q' hq'
  obtain ⟨hqa, hqb⟩ := hqs q hq
  rcases hrel with ⟨h1, h2⟩ | ⟨h1, h2⟩
  · refine ⟨by rw [h1]; exact hqa, by rw [h2]; exact hqb, ?_⟩
    rw [hans, h1, h2]
  · refine ⟨by rw [h1]; exact hqb, by rw [h2]; exact hqa, ?_⟩
    rw [hans, h1, h2, Nat.mul_comm]

theorem table_raw_mem (n : Nat) (r : DrawStreams) (q : RawQuestion)
    (hq : q ∈ shuffle (cyclicFill (shuffle (tablePool n) r.poolJs)) r.qsJs) :
    q ∈ tablePool n := by
  rw [(shufflePerm _ _).mem_iff] at hq
  have hlen : (shuffle (tablePool n) r.poolJs).length = 12 :=
    (shufflePerm _ _).length_eq.trans (tablePool_length n)
  have hne : shuffle (tablePool n) r.poolJs ≠ [] :=
    List.length_pos.1 (by rw [hlen]; norm_num)
  have hq2 := mem_cyclicFill _ hne q hq
  rw [(shufflePerm _ _).mem_iff] at hq2
  exact hq2

/-- C6: for every valid mode and every sequence of random draws,
`generateQuestions` returns exactly 15 entries, each with operands in
`[1,12]` and `answer = a*b`; since the display swap only relabels the two
operands, the identity `answer = a*b` holds on the displayed operands and
the answer equals the product of the pre-swap operands. -/
theorem generateQuestions_spec (mode : Mode) (hm : ValidMode mode) (r : DrawStreams) :
    (generateQuestions mode r).length = TOTAL_QUESTIONS ∧
    ∀ q ∈ generateQuestions mode r,
      (1 ≤ q.a ∧ q.a ≤ 12) ∧ (1 ≤ q.b ∧ q.b ≤ 12) ∧ q.answer = q.a * q.b := by
  cases mode with
  | mixed =>
    constructor
    · rw [generateQuestions, applySwaps_length, mixedPairs, List.length_map,
        List.length_range]
    · rw [generateQuestions]
      refine applySwaps_spec r.swaps 0 _ ?_
      intro p hp
      rw [mixedPairs, List.mem_map] at hp
      obtain ⟨i, _, rfl⟩ := hp
      have ha := (r.mixedA i).isLt
      have hb := (r.mixedB i).isLt
      refine ⟨⟨?_, ?_⟩, ?_, ?_⟩ <;> dsimp only <;> omega
  | table n =>
    obtain ⟨hn1, hn2⟩ := hm
    constructor
    · rw [generateQuestions, applySwaps_length, (shufflePerm _ _).length_eq,
        cyclicFill_length]
    · rw [generateQuestions]
      refine applySwaps_spec r.swaps 0 _ ?_
      intro p hp
      have hmem := table_raw_mem n r p hp
      rw [tablePool_mem_iff] at hmem
      obtain ⟨hpa, hpb1, hpb2⟩ := hmem
      exact ⟨⟨by omega, by omega⟩, hpb1, hpb2⟩

theorem generateQuestions_spec_witness :
    ValidMode (Mode.table 7) ∧
    ((generateQuestions (Mode.table 7) constStreams).length = TOTAL_QUESTIONS ∧
      ∀ q ∈ generateQuestions (Mode.table 7) constStreams,
        (1 ≤ q.a ∧ q.a ≤ 12) ∧ (1 ≤ q.b ∧ q.b ≤ 12) ∧ q.answer = q.a * q.b) :=
  ⟨⟨by omega, by omega⟩,
    generateQuestions_spec (Mode.table 7) ⟨by omega, by omega⟩ constStreams⟩

/-- C7: in fixed-table mode `n ∈ [1,12]`, the 15 generated questions —
viewed as unordered pairs, ignoring the display swap — contain each of the
12 facts `(n,1)…(n,12)` at least once, and every question is such a pool
fact (the 3 extra slots are repeats of pool entries). -/
theorem generateQuestions_table_coverage (n : Nat) (_h1 : 1 ≤ n) (_h2 : n ≤ 12)
    (r : DrawStreams) :
    (∀ k, 1 ≤ k → k ≤ 12 →
      ∃ q ∈ generateQuestions (Mode.table n) r,
        (q.a = n ∧ q.b = k) ∨ (q.a = k ∧ q.b = n)) ∧
    (∀ q ∈ generateQuestions (Mode.table n) r,
      ∃ k, 1 ≤ k ∧ k ≤ 12 ∧ ((q.a = n ∧ q.b = k) ∨ (q.a = k ∧ q.b = n))) := by
  constructor
  · intro k hk1 hk2
    have hpool : ({ a := n, b := k } : RawQuestion) ∈ tablePool n :=
      (tablePool_mem_iff n _).2 ⟨rfl, hk1, hk2⟩
    have hlen : (shuffle (tablePool n) r.poolJs).length = 12 :=
      (shufflePerm _ _).length_eq.trans (tablePool_length n)
    have hs1 : ({ a := n, b := k } : RawQuestion) ∈ shuffle (tablePool n) r.poolJs :=
      ((shufflePerm _ _).mem_iff).2 hpool
    have hfill := cyclicFill_covers _ hlen _ hs1
    have hs2 : ({ a := n, b := k } : RawQuestion) ∈
        shuffle (cyclicFill (shuffle (tablePool n) r.poolJs)) r.qsJs :=
      ((shufflePerm _ _).mem_iff).2 hfill
    obtain ⟨q', hq', hrel, _⟩ := applySwaps_mem r.swaps 0 _ _ hs2
    refine ⟨q', hq', ?_⟩
    rcases hrel with ⟨ha, hb⟩ | ⟨ha, hb⟩
    · exact Or.inl ⟨ha, hb⟩
    · exact Or.inr ⟨ha, hb⟩
  · intro q hq
    rw [generateQuestions] at hq
    obtain ⟨q0, hq0, hrel, _⟩ := mem_applySwaps r.swaps 0 _ q hq
    have hmem := table_raw_mem n r q0 hq0
    rw [tablePool_mem_iff] at hmem
    obtain ⟨hpa, hpb1, hpb2⟩ := hmem
    refine ⟨q0.b, hpb1, hpb2, ?_⟩
    rcases hrel with ⟨ha, hb⟩ | ⟨ha, hb⟩
    · exact Or.inl ⟨ha.trans hpa, hb⟩
    · exact Or.inr ⟨ha, hb.trans hpa⟩

theorem generateQuestions_table_coverage_witness :
    ∃ q ∈ generateQuestions (Mode.table 7) constStreams,
      (q.a = 7 ∧ q.b = 5) ∨ (q.a = 5 ∧ q.b = 7) :=
  (generateQuestions_table_coverage 7 (by omega) (by omega) constStreams).1
    5 (by omega) (by omega)

/-- C10: for every input array and every sequence of random index draws
with `0 ≤ js i ≤ i` at each loop step, `shuffle` returns a permutation of
its input, so the multiset of elements and the length are preserved. -/
theorem shuffle_is_perm {α : Type} (l : List α) (js : Nat → Nat)
    (_h : ∀ i, js i ≤ i) :
    List.Perm (shuffle l js) l ∧ (shuffle l js).length = l.length :=
  ⟨shufflePerm l js, (shufflePerm l js).length_eq⟩

theorem shuffle_is_perm_witness :
    (∀ i, (fun _ => 0 : Nat → Nat) i ≤ i) ∧
    (List.Perm (shuffle [10, 20, 30] (fun _ => 0)) [10, 20, 30] ∧
      (shuffle [10, 20, 30] (fun _ => 0)).length = ([10, 20, 30] : List Nat).length) :=
  ⟨fun i => Nat.zero_le i,
    shuffle_is_perm [10, 20, 30] (fun _ => 0) (fun i => Nat.zero_le i)⟩

end TimesTableTurbo
